import Mathlib

/-
  Verification of the goflow session execution engine, webhook service and
  modifier reading against the repository specification.

  The embedding translates:
    - flows/engine/engine.go            (StartFlow, ResumeFlow, continueRunUntilWait,
                                         resumeNode, enterNode, pickNodeExit)
    - flows/contact.go (results part)   (Result, Results.Save)
    - utils (Snakify)
    - services/webhooks/service.go      (newCallFromResponse, statusFromCode)
    - flows/actions/modifiers           (groups modifier reading; modelled from the
                                         spec, the implementation is only present
                                         through its test)

  The concrete implementations of flows.FlowRun, flows.Step, waits, routers and
  actions are not part of the inspected source slice; they are modelled from the
  specification (sections 3, 4.1, 4.4 of the spec): runs carry a path of steps,
  a results map, an event log and a status; AddError appends an error event and
  terminates the run with status errored (fatal run errors per the spec error
  classification); waits set and clear the pending wait and the waiting status.
  Machine timestamps are abstracted to a Nat clock.
-/

namespace Goflow

/-- Run statuses from the data model (spec section 3). -/
inductive RunStatus where
  | active
  | waiting
  | completed
  | errored
  | expired
  | interrupted
deriving DecidableEq, Repr

/-- Payload of an engine event. Error and save-result events are the ones the
engine itself produces; action and input events stand for the payloads emitted
by actions and for the input that StartFlow forwards as entry event. -/
inductive EventData where
  | error (text : String)
  | saveResult (nodeUUID : String) (name : String) (value : String) (category : String)
  | action (tag : String)
  | input (text : String)
deriving DecidableEq, Repr

/-- An event in the run log, tagged with the node of the step it was added to. -/
structure Event where
  stepNode : String
  data : EventData
deriving DecidableEq, Repr

/-- A step of a run path: the node entered, and the exit set on leave
(empty while the step is current). -/
structure Step where
  nodeUUID : String
  exitUUID : String
deriving DecidableEq, Repr

/-- Result captured during a run (flows Result struct). Timestamps are a Nat clock. -/
structure Result where
  name : String
  value : String
  category : String
  categoryLocalized : String
  nodeUUID : String
  input : String
  extra : String
  createdOn : Nat
deriving DecidableEq, Repr

/-- Characters kept by Snakify: the regexp class \p{L}\d_ of utils.Snakify.
Unicode letters are modelled on the character ranges the claims exercise
(ASCII letters); RE2 \d is the ASCII digits. -/
def isSnakeKept (c : Char) : Bool :=
  c.isAlpha || c.isDigit || c == '_'

/-- Replace every maximal run of characters outside the kept class with a
single underscore, the semantics of ReplaceAllString with pattern
[^\p{L}\d_]+; the flag records whether the previous character was part of a
replaced run. -/
def collapseRunsAux : Bool → List Char → List Char
  | _, [] => []
  | inRun, c :: rest =>
    if isSnakeKept c then c :: collapseRunsAux false rest
    else if inRun then collapseRunsAux true rest
    else '_' :: collapseRunsAux true rest

/-- Replace every maximal run of characters outside the kept class with a
single underscore. -/
def collapseRuns (l : List Char) : List Char := collapseRunsAux false l

/-- strings.TrimSpace on the character list: drop leading and trailing
whitespace. -/
def trimChars (l : List Char) : List Char :=
  ((l.dropWhile Char.isWhitespace).reverse.dropWhile Char.isWhitespace).reverse

/-- utils.Snakify: lower-case the trimmed text after replacing runs of
non-letter, non-digit, non-underscore characters with a single underscore. -/
def snakify (text : String) : String :=
  String.mk ((collapseRuns (trimChars text.data)).map Char.toLower)

/-- The runs results map: snakified name to result (flows.Results). -/
abbrev Results := List (String × Result)

/-- Results.Save: store the result under the snakified form of its name,
replacing any previous result under that key (Go map assignment). -/
def Results.save (rs : Results) (res : Result) : Results :=
  (snakify res.name, res) :: rs.filter (fun p => p.1 != snakify res.name)

/-- A wait attached to a node. GetEndEvent is modelled as the stored optional
end event: none means the wait really suspends, some means it can end
immediately (spec section 4.4). -/
structure WaitSpec where
  endEvent : Option EventData
deriving DecidableEq, Repr

/-- The mutable state of a run (spec section 3, Run and Session collapsed to the
single-run sessions the claims are about). Parent runs and cross-flow resume
(engine.go lines 70-79) are outside the modelled fragment. -/
structure RunState where
  status : RunStatus
  path : List Step
  results : Results
  events : List Event
  wait : Option WaitSpec
  language : String
  contactLang : Option String
  input : Option EventData
  clock : Nat
deriving DecidableEq, Repr

/-- run.AddEvent: append an event to the log (timestamping via the clock). -/
def RunState.addEvent (run : RunState) (stepNode : String) (d : EventData) : RunState :=
  { run with events := run.events ++ [⟨stepNode, d⟩], clock := run.clock + 1 }

/-- run.AddError: append an error event and terminate the run with status
errored (fatal run error, spec section 4.1 error classification). -/
def RunState.addError (run : RunState) (stepNode : String) (msg : String) : RunState :=
  { run.addEvent stepNode (EventData.error msg) with status := RunStatus.errored }

/-- run.Exit: transition the run to the given terminal status. -/
def RunState.exitRun (run : RunState) (s : RunStatus) : RunState :=
  { run with status := s }

/-- run.CreateStep: append a fresh step for the node to the path. -/
def RunState.createStep (run : RunState) (nodeUUID : String) : RunState :=
  { run with path := run.path ++ [⟨nodeUUID, ""⟩] }

/-- The step the engine is currently on: the last of the path. -/
def RunState.currentStep (run : RunState) : Step :=
  (run.path.getLast?).getD ⟨"", ""⟩

/-- step.Leave: set the exit UUID on the current (last) step. -/
def RunState.leaveStep (run : RunState) (e : String) : RunState :=
  match run.path.getLast? with
  | none => run
  | some s => { run with path := run.path.dropLast ++ [{ s with exitUUID := e }] }

/-- wait.Begin: store the pending wait and set the waiting status. -/
def RunState.waitBegin (run : RunState) (w : WaitSpec) : RunState :=
  { run with wait := some w, status := RunStatus.waiting }

/-- wait.End: clear the pending wait and return to the active status. -/
def RunState.waitEnd (run : RunState) (_e : EventData) : RunState :=
  { run with wait := none, status := RunStatus.active }

/-- flow.CreateRun: a fresh active run with empty path, results and events. -/
def createRun (contactLang : Option String) : RunState :=
  ⟨RunStatus.active, [], [], [], none, "", contactLang, none, 0⟩

/-- A route picked by a router: exit UUID and match value (flows.Route). -/
structure Route where
  exit : String
  matchVal : String
deriving DecidableEq, Repr

/-- flows.NoRoute. -/
def noRoute : Route := ⟨"", ""⟩

/-- An exit of a node: UUID, name, destination node UUID ("" is terminal). -/
structure Exit where
  uuid : String
  name : String
  destination : String
deriving DecidableEq, Repr

/-- A router: result name and PickRoute. Router implementations are not part of
the source slice; PickRoute is an abstract function of the run, the exits of
the node and the current step, returning a route and an optional error. -/
structure Router where
  name : String
  pick : RunState → List Exit → Step → Route × Option String

/-- An action. Its Execute is modelled from the spec capability set: it may
inspect the run and emit events, and may return a fatal error. -/
structure Action where
  exec : RunState → Step → List EventData × Option String

/-- A node of a flow: UUID, ordered actions, optional router, optional wait,
ordered exits. -/
structure Node where
  uuid : String
  actions : List Action
  router : Option Router
  wait : Option WaitSpec
  exits : List Exit

/-- A flow: base language and ordered node list (the first node is the entry). -/
structure Flow where
  language : String
  nodes : List Node

/-- The empty destination UUID constant of the engine. -/
def noDestination : String := ""

/-- flow.GetNode: look a node up by UUID. -/
def Flow.getNode (flow : Flow) (u : String) : Option Node :=
  flow.nodes.find? (fun n => n.uuid == u)

/-- The set of node UUIDs of a flow (used for the traversal termination measure;
the visited set only ever collects UUIDs of nodes found in the flow). -/
def Flow.nodeUUIDs (flow : Flow) : Finset String :=
  (flow.nodes.map Node.uuid).toFinset

/-- initTranslations: seed the run language from the contact, falling back to
the flow base language. -/
def initTranslations (flow : Flow) (run : RunState) : RunState :=
  { run with language := run.contactLang.getD flow.language }

/-- The exit lookup of pickNodeExit: scan the exits for the stamped UUID,
keeping name and exit of the last match; an empty UUID is not looked up. -/
def exitLookup (exits : List Exit) (exitUUID : String) : String × Option Exit :=
  if exitUUID != "" then
    exits.foldl (fun acc e => if e.uuid == exitUUID then (e.name, some e) else acc) ("", none)
  else ("", none)

/-- The result-saving block of pickNodeExit: a router with a non-empty name
logs a save-result event and stores the result under the snakified name, with
the UUID of the node being left. -/
def saveRouterResult (run : RunState) (node : Node) (routerName : Option String)
    (route : Route) (exitName : String) : RunState :=
  match routerName with
  | some rname =>
    if rname != "" then
      let withEvent :=
        run.addEvent run.currentStep.nodeUUID
          (EventData.saveResult node.uuid rname route.matchVal exitName)
      { withEvent with
          results := withEvent.results.save
            ⟨rname, route.matchVal, exitName, "", node.uuid, "", "", run.clock⟩ }
    else run
  | none => run

/-- The second half of pickNodeExit, after the step was stamped: look the exit
up by UUID (last match wins), save the router result if the router is named,
and return the destination of the found exit. -/
def pickAfterLeave (run : RunState) (node : Node) (routerName : Option String)
    (route : Route) (exitUUID : String) : RunState × String × Option String :=
  let lerr : Option String :=
    if exitUUID != "" then some ("Unable to find exit with uuid " ++ exitUUID) else none
  let run2 := saveRouterResult run node routerName route (exitLookup node.exits exitUUID).1
  match (exitLookup node.exits exitUUID).2 with
  | none => (run2, noDestination, lerr)
  | some e => (run2, e.destination, none)

/-- pickNodeExit: have the router pick a route (or default to the first exit
when there is no router), stamp the exit on the step, save the result of a
named router, and return the destination. -/
def pickNodeExit (run : RunState) (node : Node) : RunState × String × Option String :=
  match node.router with
  | some router =>
    match router.pick run node.exits run.currentStep with
    | (route, some msg) =>
      ((run.leaveStep route.exit).addError (run.leaveStep route.exit).currentStep.nodeUUID msg,
        noDestination, some msg)
    | (route, none) =>
      pickAfterLeave (run.leaveStep route.exit) node (some router.name) route route.exit
  | none =>
    match node.exits with
    | [] => pickAfterLeave (run.leaveStep "") node none noRoute ""
    | e :: _ => pickAfterLeave (run.leaveStep e.uuid) node none noRoute e.uuid

/-- Execute the actions of a node in order; a fatal error stops the remaining
actions and is returned. -/
def runActions (run : RunState) (node : Node) : List Action → RunState × Option String
  | [] => (run, none)
  | a :: rest =>
    match a.exec run run.currentStep with
    | (evts, some msg) => (evts.foldl (fun s d => s.addEvent node.uuid d) run, some msg)
    | (evts, none) => runActions (evts.foldl (fun s d => s.addEvent node.uuid d) run) node rest

/-- The first two statements of enterNode: create the step and log the entry
event if there is one. -/
def arrive (run : RunState) (node : Node) (evt : Option EventData) : RunState :=
  let run1 := run.createStep node.uuid
  match evt with
  | some d => run1.addEvent node.uuid d
  | none => run1

/-- enterNode: create a step, log the entry event, execute the actions, begin
the wait (suspending unless it can end immediately) and pick the exit. -/
def enterNode (run : RunState) (node : Node) (evt : Option EventData) :
    RunState × String × Option String :=
  match runActions (arrive run node evt) node node.actions with
  | (run3, some msg) => (run3, noDestination, some msg)
  | (run3, none) =>
    match node.wait with
    | some w =>
      match w.endEvent with
      | none => (run3.waitBegin w, noDestination, none)
      | some ev => pickNodeExit ((run3.waitBegin w).waitEnd ev) node
    | none => pickNodeExit run3 node

/-- resumeNode: it is an error to resume at a node that no longer has a wait;
otherwise end the wait and pick the exit. -/
def resumeNode (run : RunState) (node : Node) (evt : Option EventData) :
    RunState × String × Option String :=
  match node.wait with
  | none =>
    (run, noDestination,
      some ("Cannot resume flow at node " ++ node.uuid ++ " which no longer contains wait"))
  | some _w =>
    let run1 := run.waitEnd (evt.getD (EventData.action "resume"))
    pickNodeExit run1 node

/-- The loop-detection error message of continueRunUntilWait. -/
def loopErrorMsg (dest : String) : String :=
  "Flow loop detected, stopping execution before entering " ++ dest

/-- The unknown-destination error message of continueRunUntilWait. -/
def destErrorMsg (dest : String) : String :=
  "Unable to find destination " ++ dest

/-- The check after the traversal loop: no pending wait and a still-active
status means the run ran to completion. -/
def finishRun (run : RunState) : RunState :=
  if run.wait = none ∧ run.status = RunStatus.active then run.exitRun RunStatus.completed
  else run

/-- The loop of continueRunUntilWait. The loop state mirrors the Go mutable
variables: current destination, current step (none before the first node is
entered from StartFlow), the entry event (passed to the first node only), the
error of the last iteration, and the visited set. The loop terminates because
every iteration moves a flow node UUID into the visited set; this is made
structural through a fuel argument consumed only where the loop iterates, and
continueLoop_fuel_stable below shows the result does not depend on the fuel
once it exceeds the number of unvisited flow nodes. -/
def continueLoop (flow : Flow) (fuel : Nat) (run : RunState) (dest : String)
    (stepNode : Option String) (evt : Option EventData) (err : Option String)
    (visited : Finset String) : RunState × Option String :=
  if dest = noDestination then (finishRun run, err)
  else if dest ∈ visited then
    match stepNode with
    | none => (run, some (loopErrorMsg dest))
    | some sn => (finishRun (run.addError sn (loopErrorMsg dest)), some (loopErrorMsg dest))
  else
    match flow.getNode dest with
    | none =>
      match stepNode with
      | none => (run, some (destErrorMsg dest))
      | some sn => (finishRun (run.addError sn (destErrorMsg dest)), some (destErrorMsg dest))
    | some node =>
      match fuel with
      | 0 => (run, some "traversal fuel exhausted")
      | f + 1 =>
        match enterNode run node evt with
        | (run', dest', err') =>
          continueLoop flow f run' dest' (some node.uuid) none err' (insert node.uuid visited)

/-- continueRunUntilWait: run the traversal loop with a fresh (empty) visited
set — the loop-detection set is reset at every continuation. The initial fuel
strictly exceeds the number of flow nodes, which continueLoop_fuel_stable
shows is enough for the fuel check to be unreachable. -/
def continueRunUntilWait (flow : Flow) (run : RunState) (dest : String)
    (stepNode : Option String) (evt : Option EventData) : RunState × Option String :=
  continueLoop flow (flow.nodeUUIDs.card + 1) run dest stepNode evt none ∅

/-- StartFlow: create the run, set the input, complete immediately on an empty
node list, otherwise traverse from the first node, passing the input as the
entry event. -/
def startFlow (flow : Flow) (contactLang : Option String) (input : Option EventData) :
    RunState × Option String :=
  let run0 := createRun contactLang
  let run1 :=
    match input with
    | some _ => { run0 with input := input }
    | none => run0
  match flow.nodes with
  | [] => (run1.exitRun RunStatus.completed, none)
  | first :: _ =>
    let run2 := initTranslations flow run1
    continueRunUntilWait flow run2 first.uuid none input

/-- ResumeFlow: hydration is modelled as the identity; an empty path is a
no-op; otherwise resume the node of the last step and continue the traversal.
Cross-flow resume into a parent run (engine.go lines 70-79) is outside the
modelled fragment: the modelled runs have no parent. -/
def resumeFlow (flow : Flow) (run : RunState) (evt : Option EventData) :
    RunState × Option String :=
  if run.path = [] then (run, none)
  else
    let run1 := initTranslations flow run
    let stepNode := run1.currentStep.nodeUUID
    match flow.getNode stepNode with
    | none =>
      let msg := "cannot resume at node " ++ stepNode ++ " that no longer exists"
      (run1.addError stepNode msg, some msg)
    | some node =>
      match resumeNode run1 node evt with
      | (runE, _, some msg) => (runE, some msg)
      | (runE, destE, none) => continueRunUntilWait flow runE destE (some stepNode) none

/-
  Webhook service (services/webhooks/service.go). Bodies are byte lists; the
  stdlib mime.ParseMediaType and http.DetectContentType are abstract parameters
  of the model (parse and detect).
-/

/-- The response content-types whose bodies are fetched. -/
def fetchResponseContentTypes : List String :=
  ["application/json", "application/javascript", "application/xml",
   "text/html", "text/plain", "text/xml", "text/javascript"]

/-- flows.CallStatus. -/
inductive CallStatus where
  | success
  | connectionError
  | responseError
  | subscriberGone
deriving DecidableEq, Repr

/-- flows.ResponseStatus ("" zero value, IO error, too large, read,
unsupported type). -/
inductive RespStatus where
  | empty
  | ioError
  | tooLarge
  | read
  | unsupportedType
deriving DecidableEq, Repr

/-- An HTTP response as the service sees it: status code, the Content-Type
header value ("" when the header is absent, as Header.Get returns), and body. -/
structure HttpResponse where
  statusCode : Nat
  contentTypeHeader : String
  body : List Nat
deriving DecidableEq, Repr

/-- flows.WebhookCall (URL, method, request trace and timing omitted: the
service copies them through opaquely). -/
structure WebhookCall where
  statusCode : Nat
  status : CallStatus
  response : List Nat
  respStatus : RespStatus
  resthook : String
deriving DecidableEq, Repr

/-- statusFromCode: resthook 410 is subscriber gone, 2xx success, the rest
response error. -/
def statusFromCode (code : Nat) (isResthook : Bool) : CallStatus :=
  if isResthook && code == 410 then CallStatus.subscriberGone
  else if code / 100 == 2 then CallStatus.success
  else CallStatus.responseError

/-- The body as the LimitReader exposes it: at most maxBodyBytes + 1 bytes. -/
def limitedBody (resp : HttpResponse) (maxBodyBytes : Nat) : List Nat :=
  resp.body.take (maxBodyBytes + 1)

/-- The content type the service settles on: the parsed header when it parses
to something non-empty, otherwise the parse of the sniff of the first 512
bytes read from the limited body. -/
def effectiveContentType (parse : String → String) (detect : List Nat → String)
    (resp : HttpResponse) (maxBodyBytes : Nat) : String :=
  let headerCT := parse resp.contentTypeHeader
  if headerCT == "" then parse (detect ((limitedBody resp maxBodyBytes).take 512))
  else headerCT

/-- newCallFromResponse: capture the body only for supported content types,
sniffing when the header is absent; reading is capped at maxBodyBytes + 1 and
exhausting the cap marks the call too large with a response error. ReadAll
drains the limited reader, so the reader has no budget left (LimitedReader.N
at most 0) exactly when the full maxBodyBytes + 1 bytes were consumed. -/
def newCallFromResponse (parse : String → String) (detect : List Nat → String)
    (responseTrace : List Nat) (resp : HttpResponse) (maxBodyBytes : Nat)
    (resthook : String) : WebhookCall :=
  let w0 : WebhookCall :=
    ⟨resp.statusCode, statusFromCode resp.statusCode (resthook != ""),
     responseTrace, RespStatus.empty, resthook⟩
  let limited := limitedBody resp maxBodyBytes
  let headerCT := parse resp.contentTypeHeader
  let sniffed := if headerCT == "" then limited.take 512 else []
  let remaining := if headerCT == "" then limited.drop 512 else limited
  if fetchResponseContentTypes.contains (effectiveContentType parse detect resp maxBodyBytes) then
    if maxBodyBytes + 1 ≤ limited.length then
      { w0 with status := CallStatus.responseError, respStatus := RespStatus.tooLarge }
    else
      { w0 with respStatus := RespStatus.read,
                response := w0.response ++ (sniffed ++ remaining) }
  else
    { w0 with respStatus := RespStatus.unsupportedType }

/-
  Groups modifier reading.
-/

/-- A group asset. -/
structure GroupAsset where
  uuid : String
  name : String
deriving DecidableEq, Repr

/-- A group reference inside a serialized modifier. -/
structure GroupRef where
  uuid : String
  name : String
deriving DecidableEq, Repr

/-- Resolve a group reference against the session assets. -/
def resolveGroup (ags : List GroupAsset) (ref : GroupRef) : Option GroupAsset :=
  ags.find? (fun g => g.uuid == ref.uuid)

/-- A groups modifier over the groups that resolved. -/
structure GroupsModifier where
  groups : List GroupAsset
  modification : String
deriving DecidableEq, Repr

/-- Modelled from the spec: the groups modifier reader
(flows/actions/modifiers/groups.go) is not under src/, only its test is. Per
spec section 4.5 and TestReadModifier, reading resolves each referenced group,
records each unresolvable reference through the missing callback, returns the
sentinel no-modifier error (none) when no group resolved, and otherwise a
groups modifier over the resolvable subset. -/
def readGroupsModifier (ags : List GroupAsset) (refs : List GroupRef)
    (modification : String) : Option GroupsModifier × List GroupRef :=
  let resolved := refs.filterMap (resolveGroup ags)
  let missing := refs.filter (fun r => (resolveGroup ags r).isNone)
  if resolved.isEmpty then (none, missing)
  else (some ⟨resolved, modification⟩, missing)

/-
  Predicates for the invariants of the spec, and concrete fixtures used by the
  witness and counterexample theorems.
-/

/-- Invariant I2 for one step: the exit UUID is empty or belongs to the exits
of the node the step was created for. -/
def stepOk (flow : Flow) (s : Step) : Prop :=
  s.exitUUID = "" ∨
    ∃ n, flow.getNode s.nodeUUID = some n ∧ s.exitUUID ∈ n.exits.map Exit.uuid

/-- Invariant I2 for a run: every step of the path satisfies stepOk. -/
def pathOk (flow : Flow) (run : RunState) : Prop :=
  ∀ s ∈ run.path, stepOk flow s

/-- The spec invariant on routers (section 3, Node): the exit references of a
router are a subset of the exits of its node. Router implementations are not
under src/, so this is carried as a hypothesis where the claims need it. -/
def routersOk (flow : Flow) : Prop :=
  ∀ node ∈ flow.nodes, ∀ router, node.router = some router →
    ∀ run s, (router.pick run node.exits s).1.exit = "" ∨
      (router.pick run node.exits s).1.exit ∈ node.exits.map Exit.uuid

/-- Invariant I3 for a run: every stored result sits under the snakified form
of its name and carries the UUID of a node the run has stepped through. -/
def resultsOk (run : RunState) : Prop :=
  ∀ q ∈ run.results, q.1 = snakify q.2.name ∧
    q.2.nodeUUID ∈ run.path.map Step.nodeUUID

/-- An action whose Execute fails fatally. -/
def failingAction : Action := ⟨fun _ _ => ([], some "boom")⟩

/-- A node whose only action fails. -/
def nodeActionError : Node := ⟨"n1", [failingAction], none, none, []⟩

/-- A flow with a single node whose only action fails. -/
def flowActionError : Flow := ⟨"eng", [nodeActionError]⟩

/-- A node with no wait (and no router). -/
def nodeNoWait : Node := ⟨"n1", [], none, none, [⟨"e1", "", ""⟩]⟩

/-- A flow holding only nodeNoWait. -/
def flowNoWait : Flow := ⟨"eng", [nodeNoWait]⟩

/-- A run suspended at nodeNoWait, as left behind by a flow edit that removed
the wait the run suspended on. -/
def runAtNoWait : RunState :=
  ⟨RunStatus.waiting, [⟨"n1", ""⟩], [], [], some ⟨none⟩, "eng", none, none, 3⟩

/-- A node with two exits and no router. -/
def nodeTwoExits : Node :=
  ⟨"n4", [], none, none, [⟨"ea", "A", "nx"⟩, ⟨"eb", "B", "ny"⟩]⟩

/-- A terminal node: no router, no exits, no wait. -/
def nodeTerminal : Node := ⟨"nt", [], none, none, []⟩

/-- A flow holding only the terminal node. -/
def flowTerminal : Flow := ⟨"eng", [nodeTerminal]⟩

/-- A looping flow: n1 routes to n2 and n2 back to n1, with no wait anywhere. -/
def flowLoop : Flow :=
  ⟨"eng", [⟨"n1", [], none, none, [⟨"e1", "", "n2"⟩]⟩,
           ⟨"n2", [], none, none, [⟨"e2", "", "n1"⟩]⟩]⟩

/-- A flow with an empty node list. -/
def emptyFlow : Flow := ⟨"eng", []⟩

/-- A sample result whose name needs snakifying. -/
def sampleResult : Result := ⟨"Favorite Color", "red", "Red", "", "n1", "", "", 0⟩

/-- A router that always picks exit e1. -/
def constRouter : Router := ⟨"Color", fun _ _ _ => (⟨"e1", "red"⟩, none)⟩

/-- A flow with a single routed node whose router always picks its only exit. -/
def flowRouted : Flow :=
  ⟨"eng", [⟨"n1", [], some constRouter, none, [⟨"e1", "Red", ""⟩]⟩]⟩

/-- An HTTP response with an unsupported content type and a 20-byte body. -/
def csvResponse : HttpResponse := ⟨200, "text/csv", List.replicate 20 89⟩

/-- An HTTP response with a supported content type and a 2-byte body. -/
def jsonResponse : HttpResponse := ⟨200, "application/json", [123, 125]⟩

/-- The group asset of the read-modifier test that resolves. -/
def winnersGroup : GroupAsset := ⟨"4349cdd6", "Winners"⟩

/-- A group reference that does not resolve. -/
def losersRef : GroupRef := ⟨"cd1a2aa6", "Losers"⟩

/-- A group reference that resolves to winnersGroup. -/
def winnersRef : GroupRef := ⟨"4349cdd6", "Winners"⟩

/-
  Frame lemmas for the run-state operations.
-/

@[simp] theorem addEvent_status (run : RunState) (sn : String) (d : EventData) :
    (run.addEvent sn d).status = run.status := rfl

@[simp] theorem addEvent_path (run : RunState) (sn : String) (d : EventData) :
    (run.addEvent sn d).path = run.path := rfl

@[simp] theorem addEvent_wait (run : RunState) (sn : String) (d : EventData) :
    (run.addEvent sn d).wait = run.wait := rfl

@[simp] theorem addEvent_results (run : RunState) (sn : String) (d : EventData) :
    (run.addEvent sn d).results = run.results := rfl

@[simp] theorem addEvent_events (run : RunState) (sn : String) (d : EventData) :
    (run.addEvent sn d).events = run.events ++ [⟨sn, d⟩] := rfl

@[simp] theorem addError_status (run : RunState) (sn : String) (msg : String) :
    (run.addError sn msg).status = RunStatus.errored := rfl

@[simp] theorem addError_path (run : RunState) (sn : String) (msg : String) :
    (run.addError sn msg).path = run.path := rfl

@[simp] theorem addError_wait (run : RunState) (sn : String) (msg : String) :
    (run.addError sn msg).wait = run.wait := rfl

@[simp] theorem addError_results (run : RunState) (sn : String) (msg : String) :
    (run.addError sn msg).results = run.results := rfl

@[simp] theorem addError_events (run : RunState) (sn : String) (msg : String) :
    (run.addError sn msg).events = run.events ++ [⟨sn, EventData.error msg⟩] := rfl

@[simp] theorem createStep_path (run : RunState) (u : String) :
    (run.createStep u).path = run.path ++ [⟨u, ""⟩] := rfl

@[simp] theorem createStep_status (run : RunState) (u : String) :
    (run.createStep u).status = run.status := rfl

@[simp] theorem createStep_wait (run : RunState) (u : String) :
    (run.createStep u).wait = run.wait := rfl

@[simp] theorem createStep_results (run : RunState) (u : String) :
    (run.createStep u).results = run.results := rfl

theorem leaveStep_concat (run : RunState) (e : String) (p : List Step) (s : Step)
    (h : run.path = p ++ [s]) :
    (run.leaveStep e).path = p ++ [{ s with exitUUID := e }] := by
  unfold RunState.leaveStep
  rw [h, List.getLast?_concat]
  simp

@[simp] theorem leaveStep_status (run : RunState) (e : String) :
    (run.leaveStep e).status = run.status := by
  unfold RunState.leaveStep
  cases run.path.getLast? <;> rfl

@[simp] theorem leaveStep_wait (run : RunState) (e : String) :
    (run.leaveStep e).wait = run.wait := by
  unfold RunState.leaveStep
  cases run.path.getLast? <;> rfl

@[simp] theorem leaveStep_results (run : RunState) (e : String) :
    (run.leaveStep e).results = run.results := by
  unfold RunState.leaveStep
  cases run.path.getLast? <;> rfl

@[simp] theorem leaveStep_events (run : RunState) (e : String) :
    (run.leaveStep e).events = run.events := by
  unfold RunState.leaveStep
  cases run.path.getLast? <;> rfl

@[simp] theorem leaveStep_nodes (run : RunState) (e : String) :
    (run.leaveStep e).path.map Step.nodeUUID = run.path.map Step.nodeUUID := by
  rcases List.eq_nil_or_concat run.path with h | ⟨p, s, h⟩
  · simp [RunState.leaveStep, h]
  · rw [List.concat_eq_append] at h
    rw [leaveStep_concat run e p s h, h]
    simp

@[simp] theorem waitBegin_path (run : RunState) (w : WaitSpec) :
    (run.waitBegin w).path = run.path := rfl

@[simp] theorem waitBegin_results (run : RunState) (w : WaitSpec) :
    (run.waitBegin w).results = run.results := rfl

@[simp] theorem waitEnd_path (run : RunState) (e : EventData) :
    (run.waitEnd e).path = run.path := rfl

@[simp] theorem waitEnd_results (run : RunState) (e : EventData) :
    (run.waitEnd e).results = run.results := rfl

theorem foldl_addEvent_frame (n : String) (l : List EventData) (run : RunState) :
    (l.foldl (fun s d => s.addEvent n d) run).status = run.status ∧
    (l.foldl (fun s d => s.addEvent n d) run).path = run.path ∧
    (l.foldl (fun s d => s.addEvent n d) run).wait = run.wait ∧
    (l.foldl (fun s d => s.addEvent n d) run).results = run.results := by
  induction l generalizing run with
  | nil => exact ⟨rfl, rfl, rfl, rfl⟩
  | cons d l ih => simpa using ih (run.addEvent n d)

theorem runActions_frame (node : Node) (l : List Action) (run : RunState) :
    (runActions run node l).1.status = run.status ∧
    (runActions run node l).1.path = run.path ∧
    (runActions run node l).1.wait = run.wait ∧
    (runActions run node l).1.results = run.results := by
  induction l generalizing run with
  | nil => exact ⟨rfl, rfl, rfl, rfl⟩
  | cons a l ih =>
    rcases hx : a.exec run run.currentStep with ⟨evts, err⟩
    have hf := foldl_addEvent_frame node.uuid evts run
    cases err with
    | none =>
      have hi := ih (evts.foldl (fun s d => s.addEvent node.uuid d) run)
      simp only [runActions, hx]
      exact ⟨hi.1.trans hf.1, hi.2.1.trans hf.2.1, hi.2.2.1.trans hf.2.2.1,
        hi.2.2.2.trans hf.2.2.2⟩
    | some msg =>
      simp only [runActions, hx]
      exact hf

theorem arrive_frame (run : RunState) (node : Node) (evt : Option EventData) :
    (arrive run node evt).status = run.status ∧
    (arrive run node evt).path = run.path ++ [⟨node.uuid, ""⟩] ∧
    (arrive run node evt).wait = run.wait ∧
    (arrive run node evt).results = run.results := by
  cases evt <;> simp [arrive]

theorem saveRouterResult_frame (run : RunState) (node : Node) (rn : Option String)
    (route : Route) (en : String) :
    (saveRouterResult run node rn route en).status = run.status ∧
    (saveRouterResult run node rn route en).path = run.path ∧
    (saveRouterResult run node rn route en).wait = run.wait := by
  unfold saveRouterResult
  rcases rn with _ | rname
  · exact ⟨rfl, rfl, rfl⟩
  · by_cases h : (rname != "") = true <;> simp [h]

theorem pickAfterLeave_frame (run : RunState) (node : Node) (rn : Option String)
    (route : Route) (e : String) :
    (pickAfterLeave run node rn route e).1.status = run.status ∧
    (pickAfterLeave run node rn route e).1.path = run.path ∧
    (pickAfterLeave run node rn route e).1.wait = run.wait := by
  have hs := saveRouterResult_frame run node rn route (exitLookup node.exits e).1
  unfold pickAfterLeave
  cases (exitLookup node.exits e).2 <;> simpa using hs

@[simp] theorem finishRun_path (r : RunState) : (finishRun r).path = r.path := by
  unfold finishRun
  split <;> rfl

@[simp] theorem finishRun_events (r : RunState) : (finishRun r).events = r.events := by
  unfold finishRun
  split <;> rfl

@[simp] theorem finishRun_results (r : RunState) : (finishRun r).results = r.results := by
  unfold finishRun
  split <;> rfl

@[simp] theorem finishRun_wait (r : RunState) : (finishRun r).wait = r.wait := by
  unfold finishRun
  split <;> rfl

theorem finishRun_of_errored (r : RunState) (h : r.status = RunStatus.errored) :
    finishRun r = r := by
  unfold finishRun
  rw [if_neg]
  rintro ⟨_, h2⟩
  rw [h] at h2
  exact RunStatus.noConfusion h2

theorem finishRun_of_active (r : RunState) (hw : r.wait = none)
    (hs : r.status = RunStatus.active) :
    finishRun r = r.exitRun RunStatus.completed := by
  unfold finishRun
  rw [if_pos ⟨hw, hs⟩]

@[simp] theorem initTranslations_currentStep (flow : Flow) (run : RunState) :
    (initTranslations flow run).currentStep = run.currentStep := rfl

theorem getNode_uuid (flow : Flow) (d : String) (n : Node) (h : flow.getNode d = some n) :
    n.uuid = d := by
  have := List.find?_some h
  simpa using this

theorem getNode_mem (flow : Flow) (d : String) (n : Node) (h : flow.getNode d = some n) :
    n ∈ flow.nodes :=
  List.mem_of_find?_eq_some h

theorem currentStep_concat (run : RunState) (p : List Step) (s : Step)
    (h : run.path = p ++ [s]) : run.currentStep = s := by
  unfold RunState.currentStep
  rw [h, List.getLast?_concat]
  rfl

theorem exitLookup_skip (u : String) (l : List Exit) (acc : String × Option Exit)
    (h : ∀ x ∈ l, x.uuid ≠ u) :
    l.foldl (fun acc e => if e.uuid == u then (e.name, some e) else acc) acc = acc := by
  induction l generalizing acc with
  | nil => rfl
  | cons x l ih =>
    have hx : (x.uuid == u) = false := by
      simpa using h x (List.mem_cons_self x l)
    rw [List.foldl_cons]
    simp only [hx, Bool.false_eq_true, if_false]
    exact ih acc (fun y hy => h y (List.mem_cons_of_mem x hy))

theorem exitLookup_head (e : Exit) (rest : List Exit) (hu : e.uuid ≠ "")
    (hnd : e.uuid ∉ rest.map Exit.uuid) :
    exitLookup (e :: rest) e.uuid = (e.name, some e) := by
  unfold exitLookup
  have hbu : (e.uuid != "") = true := by simpa using hu
  rw [if_pos hbu, List.foldl_cons]
  simp only [beq_self_eq_true, if_true]
  refine exitLookup_skip e.uuid rest _ (fun x hx hcon => hnd ?_)
  rw [← hcon]
  exact List.mem_map_of_mem Exit.uuid hx

theorem pickNodeExit_noRouter_first (run : RunState) (node : Node) (e : Exit)
    (rest : List Exit) (hr : node.router = none) (hx : node.exits = e :: rest)
    (hu : e.uuid ≠ "") (hnd : (node.exits.map Exit.uuid).Nodup) :
    pickNodeExit run node = (run.leaveStep e.uuid, e.destination, none) := by
  have hnotin : e.uuid ∉ rest.map Exit.uuid := by
    rw [hx, List.map_cons] at hnd
    exact (List.nodup_cons.mp hnd).1
  have hlk : exitLookup node.exits e.uuid = (e.name, some e) := by
    rw [hx]
    exact exitLookup_head e rest hu hnotin
  unfold pickNodeExit
  rw [hr]
  dsimp only
  rw [hx]
  dsimp only
  unfold pickAfterLeave
  rw [hlk]
  simp [saveRouterResult]

theorem pickNodeExit_noRouter_noExits (run : RunState) (node : Node)
    (hr : node.router = none) (hx : node.exits = []) :
    pickNodeExit run node = (run.leaveStep "", noDestination, none) := by
  unfold pickNodeExit
  rw [hr]
  dsimp only
  rw [hx]
  dsimp only
  unfold pickAfterLeave
  simp [exitLookup, saveRouterResult, noDestination]

theorem pickNodeExit_path (run : RunState) (node : Node) (p : List Step) (s : Step)
    (h : run.path = p ++ [s]) :
    ∃ x, (pickNodeExit run node).1.path = p ++ [{ s with exitUUID := x }] := by
  unfold pickNodeExit
  cases hr : node.router with
  | some router =>
    dsimp only
    rcases hp : router.pick run node.exits run.currentStep with ⟨route, err⟩
    cases err with
    | some msg =>
      dsimp only
      exact ⟨route.exit, by simpa using leaveStep_concat run route.exit p s h⟩
    | none =>
      dsimp only
      refine ⟨route.exit, ?_⟩
      rw [(pickAfterLeave_frame (run.leaveStep route.exit) node (some router.name)
        route route.exit).2.1]
      exact leaveStep_concat run route.exit p s h
  | none =>
    dsimp only
    cases hx : node.exits with
    | nil =>
      dsimp only
      refine ⟨"", ?_⟩
      rw [(pickAfterLeave_frame (run.leaveStep "") node none noRoute "").2.1]
      exact leaveStep_concat run "" p s h
    | cons e rest =>
      dsimp only
      refine ⟨e.uuid, ?_⟩
      rw [(pickAfterLeave_frame (run.leaveStep e.uuid) node none noRoute e.uuid).2.1]
      exact leaveStep_concat run e.uuid p s h

theorem enterNode_path (run : RunState) (node : Node) (evt : Option EventData) :
    ∃ x, (enterNode run node evt).1.path = run.path ++ [⟨node.uuid, x⟩] := by
  unfold enterNode
  rcases hra : runActions (arrive run node evt) node node.actions with ⟨run3, aerr⟩
  have h3 : run3.path = run.path ++ [⟨node.uuid, ""⟩] := by
    have hframe := (runActions_frame node node.actions (arrive run node evt)).2.1
    rw [hra] at hframe
    rw [hframe, (arrive_frame run node evt).2.1]
  cases aerr with
  | some msg => exact ⟨"", h3⟩
  | none =>
    dsimp only
    cases hw : node.wait with
    | none =>
      dsimp only
      exact pickNodeExit_path run3 node run.path ⟨node.uuid, ""⟩ h3
    | some w =>
      dsimp only
      cases he : w.endEvent with
      | none =>
        dsimp only
        exact ⟨"", by simpa using h3⟩
      | some ev =>
        dsimp only
        exact pickNodeExit_path ((run3.waitBegin w).waitEnd ev) node run.path
          ⟨node.uuid, ""⟩ (by simpa using h3)

theorem enterNode_nodes (run : RunState) (node : Node) (evt : Option EventData) :
    (enterNode run node evt).1.path.map Step.nodeUUID =
      run.path.map Step.nodeUUID ++ [node.uuid] := by
  obtain ⟨x, hx⟩ := enterNode_path run node evt
  rw [hx]
  simp

/-
  Results lemmas: every stored result sits under the snakified form of its
  name, with the UUID of the node that produced it.
-/

theorem save_mem (rs : Results) (res : Result) (q : String × Result)
    (h : q ∈ rs.save res) : (q.1 = snakify res.name ∧ q.2 = res) ∨ q ∈ rs := by
  unfold Results.save at h
  rcases List.mem_cons.mp h with h1 | h2
  · left
    rw [h1]
    exact ⟨rfl, rfl⟩
  · right
    exact List.mem_of_mem_filter h2

theorem saveRouterResult_results_mem (run : RunState) (node : Node) (rn : Option String)
    (route : Route) (en : String) (q : String × Result)
    (h : q ∈ (saveRouterResult run node rn route en).results) :
    q ∈ run.results ∨ (q.1 = snakify q.2.name ∧ q.2.nodeUUID = node.uuid) := by
  unfold saveRouterResult at h
  cases rn with
  | none => exact Or.inl h
  | some rname =>
    dsimp only at h
    by_cases hb : (rname != "") = true
    · rw [if_pos hb] at h
      dsimp only at h
      rcases save_mem _ _ q (by simpa using h) with ⟨h1, h2⟩ | hold
      · right
        rw [h2]
        exact ⟨h1, rfl⟩
      · left
        simpa using hold
    · rw [if_neg hb] at h
      exact Or.inl h

theorem pickAfterLeave_results_mem (run : RunState) (node : Node) (rn : Option String)
    (route : Route) (e : String) (q : String × Result)
    (h : q ∈ (pickAfterLeave run node rn route e).1.results) :
    q ∈ run.results ∨ (q.1 = snakify q.2.name ∧ q.2.nodeUUID = node.uuid) := by
  unfold pickAfterLeave at h
  rcases hlk : (exitLookup node.exits e).2 with _ | ex <;> rw [hlk] at h <;>
    dsimp only at h <;>
    exact saveRouterResult_results_mem run node rn route _ q h

theorem pickNodeExit_results_mem (run : RunState) (node : Node) (q : String × Result)
    (h : q ∈ (pickNodeExit run node).1.results) :
    q ∈ run.results ∨ (q.1 = snakify q.2.name ∧ q.2.nodeUUID = node.uuid) := by
  unfold pickNodeExit at h
  cases hr : node.router with
  | some router =>
    rw [hr] at h
    dsimp only at h
    rcases hp : router.pick run node.exits run.currentStep with ⟨route, err⟩
    rw [hp] at h
    cases err with
    | some msg =>
      dsimp only at h
      left
      simpa using h
    | none =>
      dsimp only at h
      have := pickAfterLeave_results_mem (run.leaveStep route.exit) node
        (some router.name) route route.exit q h
      simpa using this
  | none =>
    rw [hr] at h
    dsimp only at h
    cases hx : node.exits with
    | nil =>
      rw [hx] at h
      dsimp only at h
      have := pickAfterLeave_results_mem (run.leaveStep "") node none noRoute "" q h
      simpa using this
    | cons e rest =>
      rw [hx] at h
      dsimp only at h
      have := pickAfterLeave_results_mem (run.leaveStep e.uuid) node none noRoute e.uuid q h
      simpa using this

theorem enterNode_results_mem (run : RunState) (node : Node) (evt : Option EventData)
    (q : String × Result) (h : q ∈ (enterNode run node evt).1.results) :
    q ∈ run.results ∨ (q.1 = snakify q.2.name ∧ q.2.nodeUUID = node.uuid) := by
  unfold enterNode at h
  rcases hra : runActions (arrive run node evt) node node.actions with ⟨run3, aerr⟩
  rw [hra] at h
  have h3 : run3.results = run.results := by
    have hframe := (runActions_frame node node.actions (arrive run node evt)).2.2.2
    rw [hra] at hframe
    rw [hframe, (arrive_frame run node evt).2.2.2]
  cases aerr with
  | some msg =>
    dsimp only at h
    rw [h3] at h
    exact Or.inl h
  | none =>
    dsimp only at h
    cases hw : node.wait with
    | none =>
      rw [hw] at h
      dsimp only at h
      rcases pickNodeExit_results_mem run3 node q h with hold | hnew
      · rw [h3] at hold
        exact Or.inl hold
      · exact Or.inr hnew
    | some w =>
      rw [hw] at h
      dsimp only at h
      cases he : w.endEvent with
      | none =>
        rw [he] at h
        dsimp only at h
        rw [show (run3.waitBegin w).results = run.results from h3] at h
        exact Or.inl h
      | some ev =>
        rw [he] at h
        dsimp only at h
        rcases pickNodeExit_results_mem ((run3.waitBegin w).waitEnd ev) node q h with hold | hnew
        · rw [show ((run3.waitBegin w).waitEnd ev).results = run.results from h3] at hold
          exact Or.inl hold
        · exact Or.inr hnew

theorem resultsOk_of_eq (r r' : RunState) (hres : r'.results = r.results)
    (hpath : r'.path.map Step.nodeUUID = r.path.map Step.nodeUUID)
    (h : resultsOk r) : resultsOk r' := by
  intro q hq
  rw [hres] at hq
  rw [hpath]
  exact h q hq

theorem enterNode_resultsOk (run : RunState) (node : Node) (evt : Option EventData)
    (h : resultsOk run) : resultsOk (enterNode run node evt).1 := by
  intro q hq
  rw [enterNode_nodes]
  rcases enterNode_results_mem run node evt q hq with hold | hnew
  · have := h q hold
    exact ⟨this.1, List.mem_append_left _ this.2⟩
  · exact ⟨hnew.1, by rw [hnew.2]; exact List.mem_append_right _ (by simp)⟩

theorem pickNodeExit_nodes (run : RunState) (node : Node) :
    (pickNodeExit run node).1.path.map Step.nodeUUID = run.path.map Step.nodeUUID := by
  unfold pickNodeExit
  cases hr : node.router with
  | some router =>
    dsimp only
    rcases hp : router.pick run node.exits run.currentStep with ⟨route, err⟩
    cases err with
    | some msg => simp
    | none =>
      dsimp only
      rw [(pickAfterLeave_frame (run.leaveStep route.exit) node (some router.name)
        route route.exit).2.1]
      exact leaveStep_nodes run route.exit
  | none =>
    dsimp only
    cases hx : node.exits with
    | nil =>
      dsimp only
      rw [(pickAfterLeave_frame (run.leaveStep "") node none noRoute "").2.1]
      exact leaveStep_nodes run ""
    | cons e rest =>
      dsimp only
      rw [(pickAfterLeave_frame (run.leaveStep e.uuid) node none noRoute e.uuid).2.1]
      exact leaveStep_nodes run e.uuid

theorem pickNodeExit_resultsOk (run : RunState) (node : Node)
    (h : resultsOk run) (hmem : node.uuid ∈ run.path.map Step.nodeUUID) :
    resultsOk (pickNodeExit run node).1 := by
  intro q hq
  rw [pickNodeExit_nodes]
  rcases pickNodeExit_results_mem run node q hq with hold | hnew
  · exact h q hold
  · exact ⟨hnew.1, by rw [hnew.2]; exact hmem⟩

theorem continueLoop_resultsOk (flow : Flow) (fuel : Nat) :
    ∀ (run : RunState) (dest : String) (sn : Option String) (evt : Option EventData)
      (err0 : Option String) (visited : Finset String), resultsOk run →
      resultsOk (continueLoop flow fuel run dest sn evt err0 visited).1 := by
  induction fuel with
  | zero =>
    intro run dest sn evt err0 visited h
    unfold continueLoop
    split
    · exact resultsOk_of_eq run _ (by simp) (by simp) h
    · split
      · split
        · exact h
        · exact resultsOk_of_eq run _ (by simp) (by simp) h
      · split
        · split
          · exact h
          · exact resultsOk_of_eq run _ (by simp) (by simp) h
        · exact h
  | succ f ih =>
    intro run dest sn evt err0 visited h
    unfold continueLoop
    split
    · exact resultsOk_of_eq run _ (by simp) (by simp) h
    · split
      · split
        · exact h
        · exact resultsOk_of_eq run _ (by simp) (by simp) h
      · split
        · split
          · exact h
          · exact resultsOk_of_eq run _ (by simp) (by simp) h
        · rename_i node heq
          dsimp only
          rcases he : enterNode run node evt with ⟨run', dest', err'⟩
          refine ih run' dest' (some node.uuid) none err' _ ?_
          have hok := enterNode_resultsOk run node evt h
          rw [he] at hok
          exact hok

theorem currentStep_nodeUUID_mem (run : RunState) (h : run.path ≠ []) :
    run.currentStep.nodeUUID ∈ run.path.map Step.nodeUUID := by
  rcases List.eq_nil_or_concat run.path with hnil | ⟨p, s, hp⟩
  · exact absurd hnil h
  · rw [List.concat_eq_append] at hp
    rw [currentStep_concat run p s hp, hp]
    simp

theorem resumeNode_resultsOk (run : RunState) (node : Node) (evt : Option EventData)
    (h : resultsOk run) (hmem : node.uuid ∈ run.path.map Step.nodeUUID) :
    resultsOk (resumeNode run node evt).1 := by
  unfold resumeNode
  cases hw : node.wait with
  | none => exact h
  | some w =>
    dsimp only
    exact pickNodeExit_resultsOk (run.waitEnd _) node
      (resultsOk_of_eq run _ rfl rfl h) hmem

theorem startFlow_resultsOk (flow : Flow) (cl : Option String) (input : Option EventData) :
    resultsOk (startFlow flow cl input).1 := by
  have hempty : ∀ r : RunState, r.results = [] → resultsOk r := by
    intro r hr q hq
    rw [hr] at hq
    cases hq
  unfold startFlow continueRunUntilWait
  cases input <;> cases hn : flow.nodes <;>
    first
      | exact hempty _ rfl
      | exact continueLoop_resultsOk flow _ _ _ _ _ _ _ (hempty _ rfl)

theorem resumeFlow_resultsOk (flow : Flow) (run : RunState) (evt : Option EventData)
    (h : resultsOk run) : resultsOk (resumeFlow flow run evt).1 := by
  unfold resumeFlow
  split
  · exact h
  · rename_i hne
    dsimp only
    cases hg : flow.getNode (initTranslations flow run).currentStep.nodeUUID with
    | none =>
      dsimp only
      exact resultsOk_of_eq run _ rfl rfl h
    | some node =>
      dsimp only
      have hok1 : resultsOk (initTranslations flow run) := resultsOk_of_eq run _ rfl rfl h
      have hmem : node.uuid ∈ (initTranslations flow run).path.map Step.nodeUUID := by
        rw [getNode_uuid flow _ node hg]
        exact currentStep_nodeUUID_mem (initTranslations flow run) hne
      have hok2 := resumeNode_resultsOk (initTranslations flow run) node evt hok1 hmem
      rcases hrn : resumeNode (initTranslations flow run) node evt with ⟨runE, destE, errE⟩
      rw [hrn] at hok2
      cases errE with
      | some msg =>
        dsimp only
        exact hok2
      | none =>
        dsimp only
        unfold continueRunUntilWait
        exact continueLoop_resultsOk flow _ _ _ _ _ _ _ hok2

/-
  Path lemmas for the step exit invariant (I2).
-/

theorem pathOk_of_path_eq (flow : Flow) (r r' : RunState) (h : r'.path = r.path)
    (hp : pathOk flow r) : pathOk flow r' := fun s hs => hp s (h ▸ hs)

theorem leaveStep_pathOk (flow : Flow) (run : RunState) (node : Node) (p : List Step)
    (s : Step) (e : String) (hp : run.path = p ++ [s]) (hs : s.nodeUUID = node.uuid)
    (hget : flow.getNode node.uuid = some node) (hpo : pathOk flow run)
    (he : e = "" ∨ e ∈ node.exits.map Exit.uuid) :
    pathOk flow (run.leaveStep e) := by
  intro t ht
  rw [leaveStep_concat run e p s hp] at ht
  rcases List.mem_append.mp ht with h1 | h2
  · exact hpo t (by rw [hp]; exact List.mem_append_left _ h1)
  · have ht2 : t = { s with exitUUID := e } := by simpa using h2
    subst ht2
    rcases he with he | he
    · exact Or.inl he
    · refine Or.inr ⟨node, ?_, he⟩
      show flow.getNode s.nodeUUID = some node
      rw [hs]
      exact hget

theorem pickNodeExit_pathOk (flow : Flow) (run : RunState) (node : Node) (p : List Step)
    (s : Step) (hro : routersOk flow) (hmem : node ∈ flow.nodes)
    (hget : flow.getNode node.uuid = some node) (hp : run.path = p ++ [s])
    (hs : s.nodeUUID = node.uuid) (hpo : pathOk flow run) :
    pathOk flow (pickNodeExit run node).1 := by
  unfold pickNodeExit
  cases hr : node.router with
  | some router =>
    dsimp only
    rcases hpick : router.pick run node.exits run.currentStep with ⟨route, err⟩
    have hre : route.exit = "" ∨ route.exit ∈ node.exits.map Exit.uuid := by
      have := hro node hmem router hr run run.currentStep
      rw [hpick] at this
      exact this
    cases err with
    | some msg =>
      dsimp only
      exact pathOk_of_path_eq flow (run.leaveStep route.exit) _ (by simp)
        (leaveStep_pathOk flow run node p s route.exit hp hs hget hpo hre)
    | none =>
      dsimp only
      exact pathOk_of_path_eq flow (run.leaveStep route.exit) _
        (pickAfterLeave_frame (run.leaveStep route.exit) node (some router.name)
          route route.exit).2.1
        (leaveStep_pathOk flow run node p s route.exit hp hs hget hpo hre)
  | none =>
    dsimp only
    cases hx : node.exits with
    | nil =>
      dsimp only
      exact pathOk_of_path_eq flow (run.leaveStep "") _
        (pickAfterLeave_frame (run.leaveStep "") node none noRoute "").2.1
        (leaveStep_pathOk flow run node p s "" hp hs hget hpo (Or.inl rfl))
    | cons e rest =>
      dsimp only
      exact pathOk_of_path_eq flow (run.leaveStep e.uuid) _
        (pickAfterLeave_frame (run.leaveStep e.uuid) node none noRoute e.uuid).2.1
        (leaveStep_pathOk flow run node p s e.uuid hp hs hget hpo
          (Or.inr (by rw [hx]; simp)))

theorem enterNode_pathOk (flow : Flow) (run : RunState) (node : Node)
    (evt : Option EventData) (hro : routersOk flow) (hmem : node ∈ flow.nodes)
    (hget : flow.getNode node.uuid = some node) (hpo : pathOk flow run) :
    pathOk flow (enterNode run node evt).1 := by
  unfold enterNode
  rcases hra : runActions (arrive run node evt) node node.actions with ⟨run3, aerr⟩
  have h3 : run3.path = run.path ++ [⟨node.uuid, ""⟩] := by
    have hframe := (runActions_frame node node.actions (arrive run node evt)).2.1
    rw [hra] at hframe
    rw [hframe, (arrive_frame run node evt).2.1]
  have hpo3 : pathOk flow run3 := by
    intro t ht
    rw [h3] at ht
    rcases List.mem_append.mp ht with h1 | h2
    · exact hpo t h1
    · have ht2 : t = ⟨node.uuid, ""⟩ := by simpa using h2
      subst ht2
      exact Or.inl rfl
  cases aerr with
  | some msg => exact hpo3
  | none =>
    dsimp only
    cases hw : node.wait with
    | none =>
      dsimp only
      exact pickNodeExit_pathOk flow run3 node run.path ⟨node.uuid, ""⟩ hro hmem hget h3
        rfl hpo3
    | some w =>
      dsimp only
      cases he : w.endEvent with
      | none =>
        dsimp only
        exact pathOk_of_path_eq flow run3 _ (by simp) hpo3
      | some ev =>
        dsimp only
        exact pickNodeExit_pathOk flow ((run3.waitBegin w).waitEnd ev) node run.path
          ⟨node.uuid, ""⟩ hro hmem hget (by simpa using h3) rfl
          (pathOk_of_path_eq flow run3 _ (by simp) hpo3)

theorem continueLoop_pathOk (flow : Flow) (hro : routersOk flow) (fuel : Nat) :
    ∀ (run : RunState) (dest : String) (sn : Option String) (evt : Option EventData)
      (err0 : Option String) (visited : Finset String), pathOk flow run →
      pathOk flow (continueLoop flow fuel run dest sn evt err0 visited).1 := by
  induction fuel with
  | zero =>
    intro run dest sn evt err0 visited h
    unfold continueLoop
    split
    · exact pathOk_of_path_eq flow run _ (by simp) h
    · split
      · split
        · exact h
        · exact pathOk_of_path_eq flow run _ (by simp) h
      · split
        · split
          · exact h
          · exact pathOk_of_path_eq flow run _ (by simp) h
        · exact h
  | succ f ih =>
    intro run dest sn evt err0 visited h
    unfold continueLoop
    split
    · exact pathOk_of_path_eq flow run _ (by simp) h
    · split
      · split
        · exact h
        · exact pathOk_of_path_eq flow run _ (by simp) h
      · split
        · split
          · exact h
          · exact pathOk_of_path_eq flow run _ (by simp) h
        · rename_i node heq
          dsimp only
          have hmem := getNode_mem flow dest node heq
          have hu := getNode_uuid flow dest node heq
          have hget : flow.getNode node.uuid = some node := by rw [hu]; exact heq
          rcases he : enterNode run node evt with ⟨run', dest', err'⟩
          refine ih run' dest' (some node.uuid) none err' _ ?_
          have hok := enterNode_pathOk flow run node evt hro hmem hget h
          rw [he] at hok
          exact hok

theorem resumeNode_pathOk (flow : Flow) (run : RunState) (node : Node)
    (evt : Option EventData) (hro : routersOk flow) (hmem : node ∈ flow.nodes)
    (hget : flow.getNode node.uuid = some node) (p : List Step) (s : Step)
    (hp : run.path = p ++ [s]) (hs : s.nodeUUID = node.uuid) (hpo : pathOk flow run) :
    pathOk flow (resumeNode run node evt).1 := by
  unfold resumeNode
  cases hw : node.wait with
  | none => exact hpo
  | some w =>
    dsimp only
    exact pickNodeExit_pathOk flow (run.waitEnd _) node p s hro hmem hget
      (by simpa using hp) hs (pathOk_of_path_eq flow run _ rfl hpo)

theorem startFlow_pathOk (flow : Flow) (cl : Option String) (input : Option EventData)
    (hro : routersOk flow) : pathOk flow (startFlow flow cl input).1 := by
  have hempty : ∀ r : RunState, r.path = [] → pathOk flow r := by
    intro r hr t ht
    rw [hr] at ht
    cases ht
  unfold startFlow continueRunUntilWait
  cases input <;> cases hn : flow.nodes <;>
    first
      | exact hempty _ rfl
      | exact continueLoop_pathOk flow hro _ _ _ _ _ _ _ (hempty _ rfl)

theorem resumeFlow_pathOk (flow : Flow) (run : RunState) (evt : Option EventData)
    (hro : routersOk flow) (hpo : pathOk flow run) :
    pathOk flow (resumeFlow flow run evt).1 := by
  unfold resumeFlow
  split
  · exact hpo
  · rename_i hne
    dsimp only
    cases hg : flow.getNode (initTranslations flow run).currentStep.nodeUUID with
    | none =>
      dsimp only
      exact pathOk_of_path_eq flow run _ rfl hpo
    | some node =>
      dsimp only
      rcases List.eq_nil_or_concat run.path with hnil | ⟨p, s, hp⟩
      · exact absurd hnil hne
      · rw [List.concat_eq_append] at hp
        have hcur : (initTranslations flow run).currentStep = s :=
          currentStep_concat (initTranslations flow run) p s hp
        have hu := getNode_uuid flow _ node hg
        have hs : s.nodeUUID = node.uuid := by rw [hu, hcur]
        have hget : flow.getNode node.uuid = some node := by
          rw [hu]
          exact hg
        have hmem := getNode_mem flow _ node hg
        have hok1 : pathOk flow (initTranslations flow run) :=
          pathOk_of_path_eq flow run _ rfl hpo
        have hok2 := resumeNode_pathOk flow (initTranslations flow run) node evt hro hmem
          hget p s hp hs hok1
        rcases hrn : resumeNode (initTranslations flow run) node evt with ⟨runE, destE, errE⟩
        rw [hrn] at hok2
        cases errE with
        | some msg =>
          dsimp only
          exact hok2
        | none =>
          dsimp only
          unfold continueRunUntilWait
          exact continueLoop_pathOk flow hro _ _ _ _ _ _ _ hok2

/-
  The fuel of the traversal loop is irrelevant once it exceeds the number of
  unvisited flow nodes: together with the initial fuel of continueRunUntilWait
  this shows the fuel check models the (terminating) unbounded Go loop.
-/

theorem continueLoop_fuel_stable (flow : Flow) (f1 : Nat) :
    ∀ (f2 : Nat) (run : RunState) (dest : String) (sn : Option String)
      (evt : Option EventData) (err0 : Option String) (visited : Finset String),
      (flow.nodeUUIDs \ visited).card < f1 → (flow.nodeUUIDs \ visited).card < f2 →
      continueLoop flow f1 run dest sn evt err0 visited =
        continueLoop flow f2 run dest sn evt err0 visited := by
  induction f1 with
  | zero =>
    intro f2 run dest sn evt err0 visited h1 h2
    exact absurd h1 (Nat.not_lt_zero _)
  | succ f1 ih =>
    intro f2 run dest sn evt err0 visited h1 h2
    cases f2 with
    | zero => exact absurd h2 (Nat.not_lt_zero _)
    | succ f2 =>
      unfold continueLoop
      by_cases hd : dest = noDestination
      · simp only [if_pos hd]
      · simp only [if_neg hd]
        by_cases hv : dest ∈ visited
        · simp only [if_pos hv]
        · simp only [if_neg hv]
          cases hg : flow.getNode dest with
          | none => rfl
          | some node =>
            dsimp only
            rcases he : enterNode run node evt with ⟨run', dest', err'⟩
            have hin : node.uuid ∈ flow.nodeUUIDs := by
              simp only [Flow.nodeUUIDs, List.mem_toFinset, List.mem_map]
              exact ⟨node, getNode_mem flow dest node hg, rfl⟩
            have hu := getNode_uuid flow dest node hg
            have hnot : node.uuid ∉ visited := by rw [hu]; exact hv
            have hsub : flow.nodeUUIDs \ insert node.uuid visited =
                (flow.nodeUUIDs \ visited).erase node.uuid := by
              ext x
              simp only [Finset.mem_sdiff, Finset.mem_insert, Finset.mem_erase]
              tauto
            have hcard : (flow.nodeUUIDs \ insert node.uuid visited).card =
                (flow.nodeUUIDs \ visited).card - 1 := by
              rw [hsub]
              exact Finset.card_erase_of_mem (Finset.mem_sdiff.mpr ⟨hin, hnot⟩)
            have hpos : 0 < (flow.nodeUUIDs \ visited).card :=
              Finset.card_pos.mpr ⟨node.uuid, Finset.mem_sdiff.mpr ⟨hin, hnot⟩⟩
            exact ih f2 run' dest' (some node.uuid) none err' (insert node.uuid visited)
              (by omega) (by omega)

theorem continueLoop_new_steps (flow : Flow) (fuel : Nat) :
    ∀ (run : RunState) (dest : String) (sn : Option String) (evt : Option EventData)
      (err0 : Option String) (visited : Finset String),
      ∃ ns : List Step,
        (continueLoop flow fuel run dest sn evt err0 visited).1.path = run.path ++ ns ∧
        (ns.map Step.nodeUUID).Nodup ∧
        ∀ u ∈ ns.map Step.nodeUUID, u ∉ visited := by
  induction fuel with
  | zero =>
    intro run dest sn evt err0 visited
    unfold continueLoop
    split
    · exact ⟨[], by simp, by simp, by simp⟩
    · split
      · split
        · exact ⟨[], by simp, by simp, by simp⟩
        · exact ⟨[], by simp, by simp, by simp⟩
      · split
        · split
          · exact ⟨[], by simp, by simp, by simp⟩
          · exact ⟨[], by simp, by simp, by simp⟩
        · exact ⟨[], by simp, by simp, by simp⟩
  | succ f ih =>
    intro run dest sn evt err0 visited
    unfold continueLoop
    split
    · exact ⟨[], by simp, by simp, by simp⟩
    · split
      · split
        · exact ⟨[], by simp, by simp, by simp⟩
        · exact ⟨[], by simp, by simp, by simp⟩
      · split
        · split
          · exact ⟨[], by simp, by simp, by simp⟩
          · exact ⟨[], by simp, by simp, by simp⟩
        · rename_i hd hv hopt node heq
          dsimp only
          rcases he : enterNode run node evt with ⟨run', dest', err'⟩
          obtain ⟨ns', hpath', hnd', hvis'⟩ :=
            ih run' dest' (some node.uuid) none err' (insert node.uuid visited)
          obtain ⟨x, hx⟩ := enterNode_path run node evt
          rw [he] at hx
          refine ⟨⟨node.uuid, x⟩ :: ns', ?_, ?_, ?_⟩
          · rw [hpath', hx]
            simp
          · simp only [List.map_cons, List.nodup_cons]
            exact ⟨fun hin => (hvis' node.uuid hin) (Finset.mem_insert_self _ _), hnd'⟩
          · intro u hu
            rcases List.mem_cons.mp hu with h1 | h2
            · rw [h1, getNode_uuid flow dest node heq]
              exact hv
            · exact fun hmem => (hvis' u h2) (Finset.mem_insert_of_mem hmem)

/-
  The claims.
-/

/-- C1: if the traversal between two waits reaches a node UUID already visited
in the same continuation, the engine does not enter the node again (the path
is unchanged and only the loop error event is appended), terminates the run
with status errored, and returns the loop error; the steps of one continuation
always carry pairwise distinct node UUIDs disjoint from the initial visited
set; and every continuation (continueRunUntilWait) starts from an empty
visited set, so a node revisited after a wait is not a loop. -/
theorem loop_detection_spec :
    (∀ (flow : Flow) (fuel : Nat) (run : RunState) (dest : String) (sn : String)
       (evt : Option EventData) (err0 : Option String) (visited : Finset String),
      dest ≠ noDestination → dest ∈ visited →
      (continueLoop flow fuel run dest (some sn) evt err0 visited).1.status =
          RunStatus.errored ∧
      (continueLoop flow fuel run dest (some sn) evt err0 visited).1.path = run.path ∧
      (continueLoop flow fuel run dest (some sn) evt err0 visited).1.events =
          run.events ++ [⟨sn, EventData.error (loopErrorMsg dest)⟩] ∧
      (continueLoop flow fuel run dest (some sn) evt err0 visited).2 =
          some (loopErrorMsg dest)) ∧
    (∀ (flow : Flow) (fuel : Nat) (run : RunState) (dest : String) (sn : Option String)
       (evt : Option EventData) (err0 : Option String) (visited : Finset String),
      ∃ ns : List Step,
        (continueLoop flow fuel run dest sn evt err0 visited).1.path = run.path ++ ns ∧
        (ns.map Step.nodeUUID).Nodup ∧
        ∀ u ∈ ns.map Step.nodeUUID, u ∉ visited) ∧
    (∀ (flow : Flow) (run : RunState) (dest : String) (sn : Option String)
       (evt : Option EventData),
      continueRunUntilWait flow run dest sn evt =
        continueLoop flow (flow.nodeUUIDs.card + 1) run dest sn evt none ∅) := by
  refine ⟨?_, continueLoop_new_steps, fun _ _ _ _ _ => rfl⟩
  intro flow fuel run dest sn evt err0 visited hd hv
  have key : continueLoop flow fuel run dest (some sn) evt err0 visited =
      (finishRun (run.addError sn (loopErrorMsg dest)), some (loopErrorMsg dest)) := by
    unfold continueLoop
    rw [if_neg hd, if_pos hv]
  have hfr : finishRun (run.addError sn (loopErrorMsg dest)) =
      run.addError sn (loopErrorMsg dest) :=
    finishRun_of_errored _ (by simp)
  rw [key, hfr]
  exact ⟨rfl, rfl, rfl, rfl⟩

/-- C1 witness: a node already in the visited set is not re-entered; the run is
errored and the loop error is returned. -/
theorem loop_detection_spec_witness :
    (continueLoop flowLoop 5 (createRun none) "n1" (some "n2") none none
      (insert "n1" (insert "n2" (∅ : Finset String)))).1.status = RunStatus.errored ∧
    (continueLoop flowLoop 5 (createRun none) "n1" (some "n2") none none
      (insert "n1" (insert "n2" (∅ : Finset String)))).2 = some (loopErrorMsg "n1") := by
  have h := (loop_detection_spec).1 flowLoop 5 (createRun none) "n1" "n2" none none
    (insert "n1" (insert "n2" (∅ : Finset String))) (by decide) (by simp)
  exact ⟨h.1, h.2.2.2⟩

/-- The looping flow end to end: the run errors on the loop, and the loop node
n1 is entered only once. -/
theorem loop_flow_errored :
    (startFlow flowLoop none none).1.status = RunStatus.errored ∧
    (startFlow flowLoop none none).2 = some (loopErrorMsg "n1") ∧
    (startFlow flowLoop none none).1.path.map Step.nodeUUID = ["n1", "n2"] := by
  decide

/-- C2 (amended): actions run in order and a fatal action error skips the
remaining actions of the node and is returned to the caller; the engine
appends no error and does not enter the wait or pick an exit; after the loop,
a run with no pending wait that is still active is exited with the normal
completed status (so an action error does not leave the run errored). -/
theorem action_error_behavior :
    (∀ (run : RunState) (node : Node) (a : Action) (rest : List Action)
       (evts : List EventData) (e : String),
      a.exec run run.currentStep = (evts, some e) →
      runActions run node (a :: rest) =
        (evts.foldl (fun s d => s.addEvent node.uuid d) run, some e)) ∧
    (∀ (run : RunState) (node : Node) (evt : Option EventData) (run3 : RunState) (e : String),
      runActions (arrive run node evt) node node.actions = (run3, some e) →
      enterNode run node evt = (run3, noDestination, some e)) ∧
    (∀ (flow : Flow) (f : Nat) (run : RunState) (dest : String) (sn : Option String)
       (evt : Option EventData) (err0 : Option String) (visited : Finset String)
       (node : Node) (r : RunState) (e : String),
      dest ≠ noDestination → dest ∉ visited → flow.getNode dest = some node →
      enterNode run node evt = (r, noDestination, some e) →
      continueLoop flow (f + 1) run dest sn evt err0 visited = (finishRun r, some e)) ∧
    (∀ r : RunState, r.wait = none → r.status = RunStatus.active →
      (finishRun r).status = RunStatus.completed) := by
  refine ⟨?_, ?_, ?_, ?_⟩
  · intro run node a rest evts e hx
    unfold runActions
    rw [hx]
  · intro run node evt run3 e h
    unfold enterNode
    rw [h]
  · intro flow f run dest sn evt err0 visited node r e hd hv hn he
    unfold continueLoop
    rw [if_neg hd, if_neg hv, hn]
    dsimp only
    rw [he]
    dsimp only
    unfold continueLoop
    rw [if_pos rfl]
  · intro r hw hs
    rw [finishRun_of_active r hw hs]
    rfl

/-- C2 witness: for the one-node flow with a failing action, the error skips
everything and the trailing check completes the still-active run. -/
theorem action_error_behavior_witness :
    runActions (createRun none) nodeActionError [failingAction] =
      (createRun none, some "boom") ∧
    continueLoop flowActionError 1 (createRun none) "n1" none none none ∅ =
      (finishRun (arrive (createRun none) nodeActionError none), some "boom") := by
  constructor
  · exact (action_error_behavior).1 (createRun none) nodeActionError failingAction []
      [] "boom" rfl
  · exact (action_error_behavior).2.2.1 flowActionError 0 (createRun none) "n1" none none
      none ∅ nodeActionError (arrive (createRun none) nodeActionError none) "boom"
      (by decide) (by decide) rfl rfl

/-- C2 counterexample: the claim says a fatal action error appends an error to
the step and the run does not end completed; on this flow the engine appends
no event at all and exits the run with status completed. -/
theorem action_error_completed_counterexample :
    (startFlow flowActionError none none).2 = some "boom" ∧
    (startFlow flowActionError none none).1.status = RunStatus.completed ∧
    (startFlow flowActionError none none).1.events = [] := by
  decide

/-- C3 (amended): resuming a run at a node whose wait no longer exists returns
the missing-wait error to the caller; the run keeps its status, path, events
and results — it is not terminated with status errored. -/
theorem missing_wait_resume_behavior (flow : Flow) (run : RunState)
    (evt : Option EventData) (node : Node) (hne : ¬ run.path = [])
    (hn : flow.getNode run.currentStep.nodeUUID = some node)
    (hw : node.wait = none) :
    resumeFlow flow run evt =
      (initTranslations flow run,
        some ("Cannot resume flow at node " ++ node.uuid ++
          " which no longer contains wait")) ∧
    (resumeFlow flow run evt).1.status = run.status ∧
    (resumeFlow flow run evt).1.path = run.path ∧
    (resumeFlow flow run evt).1.events = run.events ∧
    (resumeFlow flow run evt).1.results = run.results := by
  have main : resumeFlow flow run evt =
      (initTranslations flow run,
        some ("Cannot resume flow at node " ++ node.uuid ++
          " which no longer contains wait")) := by
    unfold resumeFlow
    rw [if_neg hne]
    dsimp only
    rw [show (initTranslations flow run).currentStep = run.currentStep from rfl, hn]
    dsimp only
    unfold resumeNode
    rw [hw]
  refine ⟨main, ?_, ?_, ?_, ?_⟩ <;> rw [main] <;> rfl

/-- C3 witness: the concrete suspended run resumed at the wait-less node keeps
its waiting status and gets the missing-wait error. -/
theorem missing_wait_resume_behavior_witness :
    (resumeFlow flowNoWait runAtNoWait none).1.status = RunStatus.waiting ∧
    (resumeFlow flowNoWait runAtNoWait none).2 =
      some ("Cannot resume flow at node n1 which no longer contains wait") := by
  have h := missing_wait_resume_behavior flowNoWait runAtNoWait none nodeNoWait
    (by decide) rfl rfl
  exact ⟨h.2.1, by rw [h.1]; rfl⟩

/-- C3 counterexample: the claim says a missing wait on resume terminates the
run with status errored; on this input ResumeFlow returns the error but the
run stays waiting, with no event appended. -/
theorem missing_wait_counterexample :
    (resumeFlow flowNoWait runAtNoWait none).2 ≠ none ∧
    (resumeFlow flowNoWait runAtNoWait none).1.status = RunStatus.waiting ∧
    (resumeFlow flowNoWait runAtNoWait none).1.status ≠ RunStatus.errored ∧
    (resumeFlow flowNoWait runAtNoWait none).1.events = runAtNoWait.events := by
  decide

/-- C4: a node with no router and at least one exit (with distinct, non-empty
exit UUIDs) stamps and follows its first exit; a node with no router and no
exits produces no destination; and entering such a terminal node in the
traversal completes the still-active run right there. -/
theorem first_exit_and_terminal_spec :
    (∀ (run : RunState) (node : Node) (e : Exit) (rest : List Exit),
      node.router = none → node.exits = e :: rest → e.uuid ≠ "" →
      (node.exits.map Exit.uuid).Nodup →
      pickNodeExit run node = (run.leaveStep e.uuid, e.destination, none)) ∧
    (∀ (run : RunState) (node : Node), node.router = none → node.exits = [] →
      pickNodeExit run node = (run.leaveStep "", noDestination, none)) ∧
    (∀ (flow : Flow) (f : Nat) (run : RunState) (dest : String) (sn : Option String)
       (evt : Option EventData) (err0 : Option String) (visited : Finset String)
       (node : Node),
      dest ≠ noDestination → dest ∉ visited → flow.getNode dest = some node →
      node.router = none → node.exits = [] → node.wait = none →
      (runActions (arrive run node evt) node node.actions).2 = none →
      run.status = RunStatus.active → run.wait = none →
      (continueLoop flow (f + 1) run dest sn evt err0 visited).2 = none ∧
      (continueLoop flow (f + 1) run dest sn evt err0 visited).1.status =
        RunStatus.completed) := by
  refine ⟨pickNodeExit_noRouter_first, pickNodeExit_noRouter_noExits, ?_⟩
  intro flow f run dest sn evt err0 visited node hd hv hn hr hx hw hact hs hwait
  have ha : runActions (arrive run node evt) node node.actions =
      ((runActions (arrive run node evt) node node.actions).1, none) := by
    rw [← hact]
  have hb := pickNodeExit_noRouter_noExits
    ((runActions (arrive run node evt) node node.actions).1) node hr hx
  have he : enterNode run node evt =
      (((runActions (arrive run node evt) node node.actions).1).leaveStep "",
        noDestination, none) := by
    unfold enterNode
    rw [ha]
    dsimp only
    rw [hw]
    dsimp only
    exact hb
  have key : continueLoop flow (f + 1) run dest sn evt err0 visited =
      (finishRun (((runActions (arrive run node evt) node node.actions).1).leaveStep ""),
        none) := by
    unfold continueLoop
    rw [if_neg hd, if_neg hv, hn]
    dsimp only
    rw [he]
    dsimp only
    unfold continueLoop
    rw [if_pos rfl]
  have hstat : (((runActions (arrive run node evt) node node.actions).1).leaveStep
      "").status = RunStatus.active := by
    rw [leaveStep_status, (runActions_frame node node.actions (arrive run node evt)).1,
      (arrive_frame run node evt).1]
    exact hs
  have hwt : (((runActions (arrive run node evt) node node.actions).1).leaveStep
      "").wait = none := by
    rw [leaveStep_wait, (runActions_frame node node.actions (arrive run node evt)).2.2.1,
      (arrive_frame run node evt).2.2.1]
    exact hwait
  rw [key, finishRun_of_active _ hwt hstat]
  exact ⟨rfl, rfl⟩

/-- C4 witness: the two-exit node follows its first exit; the terminal node
completes the run. -/
theorem first_exit_and_terminal_spec_witness :
    pickNodeExit (createRun none) nodeTwoExits =
      ((createRun none).leaveStep "ea", "nx", none) ∧
    (continueLoop flowTerminal 1 (createRun none) "nt" none none none ∅).1.status =
      RunStatus.completed := by
  constructor
  · exact (first_exit_and_terminal_spec).1 (createRun none) nodeTwoExits
      ⟨"ea", "A", "nx"⟩ [⟨"eb", "B", "ny"⟩] rfl rfl (by decide) (by decide)
  · exact ((first_exit_and_terminal_spec).2.2 flowTerminal 0 (createRun none) "nt" none
      none none ∅ nodeTerminal (by decide) (by decide) rfl rfl rfl rfl rfl rfl rfl).2

/-- C5: starting a flow with an empty node list produces a completed run with
empty path, no events (so nothing beyond the trigger) and no error. -/
theorem empty_flow_start_spec (flow : Flow) (cl : Option String)
    (input : Option EventData) (h : flow.nodes = []) :
    (startFlow flow cl input).2 = none ∧
    (startFlow flow cl input).1.status = RunStatus.completed ∧
    (startFlow flow cl input).1.path = [] ∧
    (startFlow flow cl input).1.events = [] ∧
    (startFlow flow cl input).1.results = [] := by
  unfold startFlow
  rw [h]
  cases input <;> exact ⟨rfl, rfl, rfl, rfl, rfl⟩

/-- C5 witness: the empty flow at a concrete start. -/
theorem empty_flow_start_spec_witness :
    (startFlow emptyFlow none none).2 = none ∧
    (startFlow emptyFlow none none).1.status = RunStatus.completed ∧
    (startFlow emptyFlow none none).1.path = [] ∧
    (startFlow emptyFlow none none).1.events = [] ∧
    (startFlow emptyFlow none none).1.results = [] :=
  empty_flow_start_spec emptyFlow none none rfl

/-- C6: Results.Save stores exactly under the snakified name (other entries
unchanged); a result saved while leaving a node carries that node's UUID; and
in every run produced by StartFlow — or by ResumeFlow from a run satisfying
the invariant — every stored result sits under snakify of its name and carries
the UUID of a node the run stepped through. -/
theorem results_key_and_node_spec :
    (∀ (rs : Results) (res : Result) (q : String × Result),
      q ∈ rs.save res → (q.1 = snakify res.name ∧ q.2 = res) ∨ q ∈ rs) ∧
    (∀ (run : RunState) (node : Node) (q : String × Result),
      q ∈ (pickNodeExit run node).1.results →
      q ∈ run.results ∨ (q.1 = snakify q.2.name ∧ q.2.nodeUUID = node.uuid)) ∧
    (∀ (flow : Flow) (cl : Option String) (input : Option EventData),
      resultsOk (startFlow flow cl input).1) ∧
    (∀ (flow : Flow) (run : RunState) (evt : Option EventData),
      resultsOk run → resultsOk (resumeFlow flow run evt).1) :=
  ⟨save_mem, pickNodeExit_results_mem, startFlow_resultsOk, resumeFlow_resultsOk⟩

/-- C6 witness: saving the sample result stores it under the snakified key. -/
theorem results_key_and_node_spec_witness :
    ("favorite_color", sampleResult).1 = snakify sampleResult.name ∧
    ("favorite_color", sampleResult).2 = sampleResult := by
  have h := (results_key_and_node_spec).1 [] sampleResult
    ("favorite_color", sampleResult) (by decide)
  rcases h with h1 | h2
  · exact h1
  · exact absurd h2 (List.not_mem_nil _)

/-- C7 (amended): the response body is captured (status read, body appended
after the trace) exactly when the effective content type is supported and the
body fits the cap; an unsupported content type is recorded as unsupported even
for oversized bodies; when the header is absent the type is sniffed from the
first min(512, max+1) bytes of the body (the sniff read counts against the
cap); and a supported body longer than the cap is marked response_too_large
with status response_error and no body appended. -/
theorem webhook_capture_spec (parse : String → String) (detect : List Nat → String)
    (trace : List Nat) (resp : HttpResponse) (m : Nat) (rh : String) :
    ((newCallFromResponse parse detect trace resp m rh).respStatus =
        RespStatus.unsupportedType ↔
      effectiveContentType parse detect resp m ∉ fetchResponseContentTypes) ∧
    ((newCallFromResponse parse detect trace resp m rh).respStatus = RespStatus.read ↔
      (effectiveContentType parse detect resp m ∈ fetchResponseContentTypes ∧
        resp.body.length ≤ m)) ∧
    (parse "" = "" → resp.contentTypeHeader = "" →
      effectiveContentType parse detect resp m =
        parse (detect (resp.body.take (min 512 (m + 1))))) ∧
    (effectiveContentType parse detect resp m ∈ fetchResponseContentTypes →
      m < resp.body.length →
      (newCallFromResponse parse detect trace resp m rh).status =
          CallStatus.responseError ∧
      (newCallFromResponse parse detect trace resp m rh).respStatus =
          RespStatus.tooLarge ∧
      (newCallFromResponse parse detect trace resp m rh).response = trace) ∧
    ((newCallFromResponse parse detect trace resp m rh).respStatus = RespStatus.read →
      (newCallFromResponse parse detect trace resp m rh).response =
        trace ++ resp.body) := by
  have hmem : fetchResponseContentTypes.contains
      (effectiveContentType parse detect resp m) = true ↔
      effectiveContentType parse detect resp m ∈ fetchResponseContentTypes :=
    List.elem_iff
  have hlen2 : (limitedBody resp m).length = min (m + 1) resp.body.length := by
    unfold limitedBody
    exact List.length_take _ _
  have hclause3 : parse "" = "" → resp.contentTypeHeader = "" →
      effectiveContentType parse detect resp m =
        parse (detect (resp.body.take (min 512 (m + 1)))) := by
    intro hp hh
    unfold effectiveContentType
    rw [hh, hp]
    simp only [beq_self_eq_true, if_true]
    unfold limitedBody
    rw [List.take_take]
  by_cases hct : fetchResponseContentTypes.contains
      (effectiveContentType parse detect resp m) = true
  · by_cases hlen : m + 1 ≤ (limitedBody resp m).length
    · have hL : m + 1 ≤ resp.body.length := by
        rw [hlen2] at hlen
        exact (le_min_iff.mp hlen).2
      have key : newCallFromResponse parse detect trace resp m rh =
          { statusCode := resp.statusCode, status := CallStatus.responseError,
            response := trace, respStatus := RespStatus.tooLarge, resthook := rh } := by
        unfold newCallFromResponse
        dsimp only
        rw [if_pos hct, if_pos hlen]
      refine ⟨?_, ?_, hclause3, ?_, ?_⟩
      · simp [key, hmem.mp hct]
      · constructor
        · intro h
          rw [key] at h
          exact RespStatus.noConfusion h
        · rintro ⟨_, hle⟩
          omega
      · intro _ _
        rw [key]
        exact ⟨rfl, rfl, rfl⟩
      · intro h
        rw [key] at h
        exact RespStatus.noConfusion h
    · have hL : resp.body.length ≤ m := by
        by_contra hcon
        push_neg at hcon
        exact hlen (by rw [hlen2]; exact le_min (le_refl _) hcon)
      have hbody : limitedBody resp m = resp.body := by
        unfold limitedBody
        exact List.take_of_length_le (by omega)
      have key : newCallFromResponse parse detect trace resp m rh =
          { statusCode := resp.statusCode,
            status := statusFromCode resp.statusCode (rh != ""),
            response := trace ++ resp.body, respStatus := RespStatus.read,
            resthook := rh } := by
        unfold newCallFromResponse
        dsimp only
        rw [if_pos hct, if_neg hlen]
        by_cases hh : (parse resp.contentTypeHeader == "") = true
        · simp only [if_pos hh]
          rw [List.take_append_drop, hbody]
        · simp only [if_neg hh]
          rw [List.nil_append, hbody]
      refine ⟨?_, ?_, hclause3, ?_, ?_⟩
      · simp [key, hmem.mp hct]
      · constructor
        · intro _
          exact ⟨hmem.mp hct, hL⟩
        · intro _
          rw [key]
      · intro _ hgt
        omega
      · intro _
        rw [key]
  · have hnot : effectiveContentType parse detect resp m ∉ fetchResponseContentTypes :=
      fun hmm => hct (hmem.mpr hmm)
    have key : newCallFromResponse parse detect trace resp m rh =
        { statusCode := resp.statusCode,
          status := statusFromCode resp.statusCode (rh != ""),
          response := trace, respStatus := RespStatus.unsupportedType,
          resthook := rh } := by
      unfold newCallFromResponse
      dsimp only
      rw [if_neg hct]
    refine ⟨?_, ?_, hclause3, ?_, ?_⟩
    · simp [key, hnot]
    · simp [key, hnot]
    · intro hmm _
      exact absurd hmm hnot
    · intro h
      rw [key] at h
      exact RespStatus.noConfusion h

/-- C7 witness: a small supported JSON response is captured whole. -/
theorem webhook_capture_spec_witness :
    (newCallFromResponse (fun s => s) (fun _ => "") [1] jsonResponse 10 "").respStatus =
      RespStatus.read ∧
    (newCallFromResponse (fun s => s) (fun _ => "") [1] jsonResponse 10 "").response =
      [1] ++ jsonResponse.body := by
  have h := webhook_capture_spec (fun s => s) (fun _ => "") [1] jsonResponse 10 ""
  have hr := h.2.1.mpr ⟨by decide, by decide⟩
  exact ⟨hr, h.2.2.2.2 hr⟩

/-- C7 counterexample: the claim says any body longer than max_body_bytes is
marked response_too_large with status response_error; this 20-byte unsupported
body with cap 10 is recorded as unsupported type with success status. -/
theorem webhook_body_cap_counterexample :
    10 < csvResponse.body.length ∧
    (newCallFromResponse (fun s => s) (fun _ => "") [] csvResponse 10 "").respStatus =
      RespStatus.unsupportedType ∧
    (newCallFromResponse (fun s => s) (fun _ => "") [] csvResponse 10 "").respStatus ≠
      RespStatus.tooLarge ∧
    (newCallFromResponse (fun s => s) (fun _ => "") [] csvResponse 10 "").status =
      CallStatus.success ∧
    (newCallFromResponse (fun s => s) (fun _ => "") [] csvResponse 10 "").status ≠
      CallStatus.responseError := by
  decide

/-- C8: reading a groups modifier returns the no-modifier sentinel exactly
when every referenced group is missing; every unresolved reference is recorded
through the missing callback; and if any reference resolves, the returned
modifier applies to the resolvable subset. -/
theorem read_groups_modifier_spec (ags : List GroupAsset) (refs : List GroupRef)
    (m : String) :
    ((readGroupsModifier ags refs m).1 = none ↔
      ∀ r ∈ refs, resolveGroup ags r = none) ∧
    (readGroupsModifier ags refs m).2 =
      refs.filter (fun r => (resolveGroup ags r).isNone) ∧
    (∀ r ∈ refs, ∀ g, resolveGroup ags r = some g →
      (readGroupsModifier ags refs m).1 =
        some ⟨refs.filterMap (resolveGroup ags), m⟩) := by
  have hkey : (refs.filterMap (resolveGroup ags)).isEmpty = true ↔
      ∀ r ∈ refs, resolveGroup ags r = none := by
    rw [List.isEmpty_iff, List.filterMap_eq_nil_iff]
  refine ⟨?_, ?_, ?_⟩
  · unfold readGroupsModifier
    by_cases h : (refs.filterMap (resolveGroup ags)).isEmpty = true
    · rw [if_pos h]
      simpa using hkey.mp h
    · rw [if_neg h]
      dsimp only
      constructor
      · intro habs
        exact Option.noConfusion habs
      · intro hall
        exact absurd (hkey.mpr hall) h
  · unfold readGroupsModifier
    by_cases h : (refs.filterMap (resolveGroup ags)).isEmpty = true
    · rw [if_pos h]
    · rw [if_neg h]
  · intro r hr g hg
    have hne : ¬ (refs.filterMap (resolveGroup ags)).isEmpty = true := by
      intro habs
      have := hkey.mp habs r hr
      rw [hg] at this
      exact Option.noConfusion this
    unfold readGroupsModifier
    rw [if_neg hne]

/-- C8 witness: with one of two referenced groups resolving, the modifier is
kept for the resolvable subset and the other reference is recorded missing. -/
theorem read_groups_modifier_spec_witness :
    (readGroupsModifier [winnersGroup] [losersRef, winnersRef] "add").1 =
      some ⟨[winnersGroup], "add"⟩ ∧
    (readGroupsModifier [winnersGroup] [losersRef, winnersRef] "add").2 =
      [losersRef] := by
  have h := (read_groups_modifier_spec [winnersGroup] [losersRef, winnersRef] "add").2.2
    winnersRef (by decide) winnersGroup (by decide)
  exact ⟨h.trans (by decide), by decide⟩

/-- C9: under the spec's router invariant (a router picks an exit of its node
or none), every step of a run produced by StartFlow — or by ResumeFlow from a
run already satisfying the invariant — has an exit UUID that is empty or one
of the exits of the node the step was created for. -/
theorem step_exit_invariant_spec :
    (∀ (flow : Flow) (cl : Option String) (input : Option EventData),
      routersOk flow → pathOk flow (startFlow flow cl input).1) ∧
    (∀ (flow : Flow) (run : RunState) (evt : Option EventData),
      routersOk flow → pathOk flow run → pathOk flow (resumeFlow flow run evt).1) :=
  ⟨fun flow cl input hro => startFlow_pathOk flow cl input hro,
   fun flow run evt hro hpo => resumeFlow_pathOk flow run evt hro hpo⟩

/-- C9 witness: the routed one-node flow satisfies the step exit invariant
after a start. -/
theorem step_exit_invariant_spec_witness :
    pathOk flowRouted (startFlow flowRouted none none).1 := by
  have hro : routersOk flowRouted := by
    intro node hmem router hr run s
    have hnode : node = ⟨"n1", [], some constRouter, none, [⟨"e1", "Red", ""⟩]⟩ := by
      simpa [flowRouted] using hmem
    subst hnode
    have hrr : constRouter = router := by
      simpa using hr
    subst hrr
    right
    simp [constRouter]
  exact (step_exit_invariant_spec).1 flowRouted none none hro

/-- C10: resuming a run whose path is empty is a no-op: the session comes back
with no error and the run is untouched. -/
theorem resume_empty_path_noop (flow : Flow) (run : RunState) (evt : Option EventData)
    (h : run.path = []) :
    resumeFlow flow run evt = (run, none) := by
  unfold resumeFlow
  rw [if_pos h]

/-- C10 witness: a fresh run has an empty path and resuming it returns it
unchanged with no error. -/
theorem resume_empty_path_noop_witness :
    resumeFlow emptyFlow (createRun none) none = (createRun none, none) :=
  resume_empty_path_noop emptyFlow (createRun none) none rfl

end Goflow
